import Mathlib

/-!
Verification of the package-resolution core of the volt package manager
(`src/utils/src/npm.rs`: `get_version` and `get_versions`).

Rust `String` values are modelled as `List Char` (`Str`), registry JSON
bodies as an explicit `JsonValue` tree mirroring `serde_json::Value`, and
the network as a function from request URL and attempt number to a
`Response`.  The third-party semver library (`semver_rs`) is kept abstract:
`get_version` is parameterised over a `Semver` record of its operations
(version parsing, rendering, comparison, range parsing), exactly the four
entry points the Rust code calls.  The `ssri` integrity library is modelled
concretely from its documented behaviour (parse whitespace-separated
`algorithm-base64digest` entries, `pick_algorithm` returns the strongest
algorithm present, `to_hex` base64-decodes the digest and hex-encodes it).

The loop in `get_version` is given a fuel parameter; `RunOutcome.diverge`
means the loop did not return within the given fuel, so proving
`∀ fuel, run = diverge` states genuine non-termination.
-/

/-- Rust `String` / `&str`, modelled as a list of characters. -/
abbrev Str := List Char

/-- Shorthand turning a Lean string literal into the `Str` model. -/
def str (s : String) : Str := s.toList

/-- The double-quote character (stripped by `.replace("\"", "")` in the source). -/
def quoteChar : Char := '"'

/-- Opening curly brace (for JSON object serialization). -/
def lbraceChar : Char := Char.ofNat 123

/-- Closing curly brace (for JSON object serialization). -/
def rbraceChar : Char := Char.ofNat 125

/-- Rust `str::split(sep)`: splits at every occurrence of the separator,
keeping empty pieces, e.g. `"@a@" → ["", "a", ""]`. -/
def splitOnChar (sep : Char) : Str → List Str
  | [] => [[]]
  | c :: cs =>
    if c = sep then [] :: splitOnChar sep cs
    else
      match splitOnChar sep cs with
      | [] => [[c]]
      | r :: rs => (c :: r) :: rs

/-- Fuelled worker for `replaceAll`; the fuel is structural so that the
function reduces definitionally (each step consumes at least one character,
so fuel equal to the input length never runs out). -/
def replaceAllAux (pat rep : Str) : Nat → Str → Str
  | _, [] => []
  | 0, l => l
  | fuel + 1, c :: cs =>
    match pat with
    | [] => c :: cs
    | p :: ps =>
      if (p :: ps).isPrefixOf (c :: cs) then
        rep ++ replaceAllAux pat rep fuel (cs.drop ps.length)
      else
        c :: replaceAllAux pat rep fuel cs

/-- Rust `str::replace(pat, rep)`: replaces every non-overlapping occurrence
of `pat` left to right.  An empty pattern leaves the string unchanged (the
source only ever uses nonempty patterns). -/
def replaceAll (pat rep l : Str) : Str := replaceAllAux pat rep l.length l

/-- `.replace("\"", "")` from the source: drop every double quote. -/
def stripQuotes (l : Str) : Str := replaceAll [quoteChar] [] l

/-- Specification-side helper for C7: the text after the last `@` of a
specifier (the whole specifier when it has no `@`). -/
def afterLastAt (l : Str) : Str :=
  (l.reverse.takeWhile (fun c => c ≠ '@')).reverse

/-- Rust `str::split_whitespace`: maximal runs of non-whitespace characters
(used by the `ssri` integrity parser). -/
def splitWs : Str → List Str
  | [] => []
  | c :: cs =>
    if c.isWhitespace then splitWs cs
    else
      match splitWs cs with
      | [] => [[c]]
      | r :: rs =>
        match cs with
        | [] => [[c]]
        | d :: _ => if d.isWhitespace then [c] :: r :: rs else (c :: r) :: rs

/-- Split at the first occurrence of `sep`: returns the part before and the
part after, or `none` when `sep` does not occur. -/
def splitAtFirst (sep : Char) : Str → Option (Str × Str)
  | [] => none
  | c :: cs =>
    if c = sep then some ([], cs)
    else
      match splitAtFirst sep cs with
      | none => none
      | some (a, b) => some (c :: a, b)

/-- Decimal digit character. -/
def digitChar (d : Nat) : Char := (str "0123456789").getD d '0'

/-- Fuelled worker for `natToStr` (a number has at most `n + 1` digits, so
the fuel never runs out). -/
def natToStrAux : Nat → Nat → Str
  | 0, _ => []
  | fuel + 1, n =>
    if n < 10 then [digitChar n]
    else natToStrAux fuel (n / 10) ++ [digitChar (n % 10)]

/-- Decimal rendering of a natural number (for JSON serialization and the
concrete semver instance used by witnesses). -/
def natToStr (n : Nat) : Str := natToStrAux (n + 1) n

/-- A JSON value, mirroring `serde_json::Value` (numbers restricted to
integers; the resolution engine never reads a number). -/
inductive JsonValue where
  | null : JsonValue
  | bool : Bool → JsonValue
  | num : Int → JsonValue
  | jstr : Str → JsonValue
  | arr : List JsonValue → JsonValue
  | obj : List (Str × JsonValue) → JsonValue

/-- `serde_json::Value` string indexing `value["key"]`: returns the entry of
an object, `null` when the key is absent or the value is not an object. -/
def JsonValue.idx (j : JsonValue) (k : Str) : JsonValue :=
  match j with
  | .obj fs =>
    match fs.find? (fun f => f.1 == k) with
    | some f => f.2
    | none => .null
  | _ => .null

/-- `Value::as_str`. -/
def JsonValue.asStr : JsonValue → Option Str
  | .jstr s => some s
  | _ => none

/-- `Value::as_object` (the field list of an object). -/
def JsonValue.asObject : JsonValue → Option (List (Str × JsonValue))
  | .obj fs => some fs
  | _ => none

/-- `serde_json::Map::contains_key`. -/
def hasKey (fs : List (Str × JsonValue)) (k : Str) : Bool :=
  (fs.find? (fun f => f.1 == k)).isSome

/-- Lookup in a `serde_json::Map`; indexing a map panics on a missing key in
Rust, so the caller must handle `none` as a panic. -/
def objGet (fs : List (Str × JsonValue)) (k : Str) : Option JsonValue :=
  (fs.find? (fun f => f.1 == k)).map (fun f => f.2)

mutual
/-- `serde_json::Value::to_string` (JSON serialization; string escaping is
not modelled — no input of interest contains characters needing escapes). -/
def jsonToStr : JsonValue → Str
  | .null => str "null"
  | .bool true => str "true"
  | .bool false => str "false"
  | .num n => if n < 0 then '-' :: natToStr n.natAbs else natToStr n.natAbs
  | .jstr s => quoteChar :: s ++ [quoteChar]
  | .arr xs => '[' :: jsonListToStr xs ++ [']']
  | .obj fs => lbraceChar :: jsonObjToStr fs ++ [rbraceChar]

def jsonListToStr : List JsonValue → Str
  | [] => []
  | [x] => jsonToStr x
  | x :: y :: xs => jsonToStr x ++ ',' :: jsonListToStr (y :: xs)

def jsonObjToStr : List (Str × JsonValue) → Str
  | [] => []
  | [f] => quoteChar :: f.1 ++ quoteChar :: ':' :: jsonToStr f.2
  | f :: g :: fs => (quoteChar :: f.1 ++ quoteChar :: ':' :: jsonToStr f.2) ++ ',' :: jsonObjToStr (g :: fs)
end

/-- Value of a character in the standard base64 alphabet. -/
def b64Val (c : Char) : Option Nat :=
  if 'A' ≤ c ∧ c ≤ 'Z' then some (c.toNat - 65)
  else if 'a' ≤ c ∧ c ≤ 'z' then some (c.toNat - 97 + 26)
  else if '0' ≤ c ∧ c ≤ '9' then some (c.toNat - 48 + 52)
  else if c = '+' then some 62
  else if c = '/' then some 63
  else none

/-- Character of a 6-bit value in the standard base64 alphabet. -/
def b64Char (v : Nat) : Char :=
  (str "ABCDEFGHIJKLMNOPQRSTUVWXYZabcdefghijklmnopqrstuvwxyz0123456789+/").getD v 'A'

/-- Standard base64 encoding with padding, as in the Rust `base64` crate's
`encode` (used by the source on the legacy `shasum` field). -/
def base64Encode : List Nat → Str
  | [] => []
  | [a] => [b64Char (a / 4), b64Char (a % 4 * 16), '=', '=']
  | [a, b] => [b64Char (a / 4), b64Char (a % 4 * 16 + b / 16), b64Char (b % 16 * 4), '=']
  | a :: b :: c :: rest =>
    b64Char (a / 4) :: b64Char (a % 4 * 16 + b / 16) ::
      b64Char (b % 16 * 4 + c / 64) :: b64Char (c % 64) :: base64Encode rest

/-- Decode base64 groups of 6-bit values into bytes; a trailing group of one
value is invalid, trailing groups of two or three values yield one or two
bytes (canonicity of unused trailing bits is not enforced). -/
def b64Groups : List Nat → Option (List Nat)
  | [] => some []
  | [_] => none
  | [a, b] => some [a * 4 + b / 16]
  | [a, b, c] => some [a * 4 + b / 16, b % 16 * 16 + c / 4]
  | a :: b :: c :: d :: rest =>
    match b64Groups rest with
    | none => none
    | some bs => some ((a * 4 + b / 16) :: (b % 16 * 16 + c / 4) :: (c % 4 * 64 + d) :: bs)

/-- Standard base64 decoding as in the Rust `base64` crate's `decode`:
strips up to two trailing padding characters, then requires every remaining
character to be in the alphabet and the length not to be 1 mod 4. -/
def base64Decode (l : Str) : Option (List Nat) :=
  let body :=
    match l.reverse with
    | '=' :: '=' :: rest => rest.reverse
    | '=' :: rest => rest.reverse
    | _ => l
  match body.mapM b64Val with
  | none => none
  | some vs => b64Groups vs

/-- Lowercase hexadecimal digit. -/
def hexDigit (v : Nat) : Char := (str "0123456789abcdef").getD v '0'

/-- Lowercase hexadecimal rendering of a byte list, as in the Rust `hex`
crate's `encode` (used by `ssri`'s `to_hex`). -/
def hexEncode (bs : List Nat) : Str :=
  bs.foldr (fun b acc => hexDigit (b / 16) :: hexDigit (b % 16) :: acc) []

/-- The digest algorithms of the `ssri` crate. -/
inductive Algorithm where
  | sha1 | sha256 | sha384 | sha512
deriving DecidableEq

/-- Strength order on algorithms: sha512 > sha384 > sha256 > sha1. -/
def Algorithm.strength : Algorithm → Nat
  | .sha1 => 0
  | .sha256 => 1
  | .sha384 => 2
  | .sha512 => 3

/-- One `algorithm-base64digest` entry of an integrity string. -/
structure SsriHash where
  algorithm : Algorithm
  digest : Str
deriving DecidableEq

/-- `ssri::Algorithm` parsing (the algorithm name before the first hyphen). -/
def parseAlgorithm (s : Str) : Option Algorithm :=
  if s = str "sha1" then some .sha1
  else if s = str "sha256" then some .sha256
  else if s = str "sha384" then some .sha384
  else if s = str "sha512" then some .sha512
  else none

/-- `ssri::Hash` parsing: split an entry at its first hyphen into a known
algorithm name and the digest (the whole remainder). -/
def parseHash (s : Str) : Option SsriHash :=
  match splitAtFirst '-' s with
  | none => none
  | some (a, d) =>
    match parseAlgorithm a with
    | none => none
    | some algo => some ⟨algo, d⟩

/-- `ssri::Integrity` parsing (`hash_string.parse()` in the source): split on
whitespace, parse every entry, fail when empty or any entry fails.
Modelled from the `ssri` crate, which is external to this repository. -/
def parseIntegrity (s : Str) : Option (List SsriHash) :=
  match (splitWs s).mapM parseHash with
  | none => none
  | some [] => none
  | some hs => some hs

/-- `Integrity::pick_algorithm`: the strongest algorithm among the parsed
entries (documented behaviour of the `ssri` crate; `sha1` is the bottom of
the strength order, so it is a neutral fold seed for nonempty input). -/
def pickAlgorithm (hs : List SsriHash) : Algorithm :=
  hs.foldl (fun acc h => if acc.strength < h.algorithm.strength then h.algorithm else acc) .sha1

/-- `Integrity::to_hex` on a single hash: base64-decode the digest and render
it as lowercase hex (an undecodable digest yields the empty byte string). -/
def toHexDigest (digest : Str) : Str :=
  hexEncode ((base64Decode digest).getD [])

/-- The error variants of `VoltError` reachable from `get_version`, with the
data each carries at its construction sites in `npm.rs`. -/
inductive VoltError where
  | unknownError : VoltError
  | tooManyRequests (url name : Str) : VoltError
  | packageNotFound (url name : Str) : VoltError
  | versionLookupError (name : Str) : VoltError
  | hashLookupError (version : Str) : VoltError
  | hashParseError (hash : Str) : VoltError
  | integrityConversionError : VoltError
deriving DecidableEq

deriving instance DecidableEq for Except

/-- `volt_api::VoltPackage` as constructed in `npm.rs`.  The `bin`,
`peerDependencies` and `dependencies` fields are always set to `None` by the
resolution engine; their payload types are not in the sources, so a neutral
map type stands in (modelled from the spec: optional maps). -/
structure VoltPackage where
  name : Str
  version : Str
  tarball : Str
  bin : Option (List (Str × Str))
  integrity : Str
  peerDependencies : Option (List (Str × Str))
  dependencies : Option (List (Str × Str))
deriving DecidableEq

/-- The success payload of `get_version`:
`(package_name, resolved_version, hash, Option<VoltPackage>)`. -/
abbrev ResolutionOut := Str × Str × Str × Option VoltPackage

/-- Result of running `get_version` with a given amount of fuel.
`diverge` means the retry loop did not return within the fuel; `panic`
models a Rust panic (`unwrap` failure or indexing a map at a missing key). -/
inductive RunOutcome where
  | ok (out : ResolutionOut) : RunOutcome
  | fail (e : VoltError) : RunOutcome
  | diverge : RunOutcome
  | panic : RunOutcome
deriving DecidableEq

/-- An HTTP response from the registry: status code and parsed JSON body.
(Transport-level failures abort the resolution via `?` in the source and are
not needed by any claim, so they are not modelled.) -/
structure Response where
  status : Nat
  body : JsonValue

/-- The registry, as a function from request URL and attempt number to the
response the registry gives that attempt. -/
abbrev Network := Str → Nat → Response

/-- The operations of the external `semver_rs` library that `get_version`
calls, kept abstract: `Version::new(k).parse()`, `Version::to_string`,
the `partial_cmp`-based comparison (as a boolean `a ≤ b`), and
`Range::new(r).parse()` (yielding the `test` predicate). -/
structure Semver (V : Type) where
  parseVer : Str → Option V
  render : V → Str
  le : V → V → Bool
  rangeParse : Str → Option (V → Bool)

/-- Descending insertion of one element (`le` is the underlying ascending
order; the head of the result list is the largest element). -/
def insertDesc {V : Type} (le : V → V → Bool) (x : V) : List V → List V
  | [] => [x]
  | y :: ys => if le y x then x :: y :: ys else y :: insertDesc le x ys

/-- `available_versions.sort_unstable_by(|a, b| a.partial_cmp(b).unwrap().reverse())`:
sort in descending order of the underlying `le`. -/
def sortDescBy {V : Type} (le : V → V → Bool) (l : List V) : List V :=
  l.foldr (insertDesc le) []

/-- `http://registry.npmjs.org/<name>`. -/
def urlFor (name : Str) : Str := str "http://registry.npmjs.org/" ++ name

/-- `"@" ++ input_version`, the substring removed from the specifier to
obtain the bare package name (`let name = format!("@{}", input_version)`). -/
def atPattern (inputVersion : Str) : Str := '@' :: inputVersion

/-- `package_name.replace(&format!("@{}", input_version), "")`: the name the
versioned branches request from the registry and store in the materialized
package. -/
def requestName (pkg inputVersion : Str) : Str :=
  replaceAll (atPattern inputVersion) [] pkg

/-- The version/range substring extracted by the scoped versioned branch:
`package_name.split("@").collect::<Vec<&str>>()[2]`. -/
def constraint2 (pkg : Str) : Str := (splitOnChar '@' pkg).getD 2 []

/-- The version/range substring extracted by the unscoped versioned branch:
`package_name.split("@").collect::<Vec<&str>>()[1]`. -/
def constraint1 (pkg : Str) : Str := (splitOnChar '@' pkg).getD 1 []

/-- The key count of `versions[v].dependencies` as the source computes it:
the number of keys when the field is an object, `0` otherwise. -/
def depCount (doc : JsonValue) (v : Str) : Nat :=
  match (((doc.idx (str "versions")).idx v).idx (str "dependencies")).asObject with
  | some fs => fs.length
  | none => 0

/-- The integrity-normalization block shared verbatim by all three branches
of `get_version` (parse the hash string with `ssri`, pick the strongest
algorithm, keep the first hash with that algorithm, render it as hex, and
re-prefix only the `sha1`/`sha512` algorithm names). -/
def normalizeHashString (hashString : Str) : Except VoltError Str :=
  match parseIntegrity hashString with
  | none => .error (.hashParseError hashString)
  | some hashes =>
    match hashes.find? (fun h => h.algorithm == pickAlgorithm hashes) with
    | none => .error .integrityConversionError
    | some h =>
      match pickAlgorithm hashes with
      | .sha1 => .ok (str "sha1-" ++ toHexDigest h.digest)
      | .sha512 => .ok (str "sha512-" ++ toHexDigest h.digest)
      | _ => .ok (toHexDigest h.digest)

/-- The hash string fed to the integrity normalizer: the serialized
`integrity` value with quotes stripped when the key is present, otherwise
`sha1-` plus the base64 of the serialized legacy `shasum` (quotes included,
as in the source); `none` when neither key exists (a Rust map-index panic). -/
def distHashInput (dist : List (Str × JsonValue)) : Option Str :=
  if hasKey dist (str "integrity") then
    (objGet dist (str "integrity")).map (fun v => stripQuotes (jsonToStr v))
  else
    (objGet dist (str "shasum")).map (fun v => str "sha1-" ++ base64Encode ((jsonToStr v).map Char.toNat))

/-- The `dist`-object block shared by the three branches: build the hash
string, normalize it, and materialize a `VoltPackage` exactly when the
dependency count is zero.  `outName` and `outVersion` are what the branch
returns in the outcome tuple; `vpName` and `vpVersion` are what it stores in
the materialized package.  Indexing the `dist` map at a missing
`shasum`/`tarball` key panics in Rust. -/
def distOutcome (outName outVersion vpName vpVersion : Str)
    (dist : List (Str × JsonValue)) (numDeps : Nat) : RunOutcome :=
  match distHashInput dist with
  | none => .panic
  | some hashString =>
    match normalizeHashString hashString with
    | .error e => .fail e
    | .ok hash =>
      if numDeps = 0 then
        match objGet dist (str "tarball") with
        | none => .panic
        | some tv =>
          .ok (outName, outVersion, hash,
            some ⟨vpName, vpVersion, stripQuotes (jsonToStr tv), none, hash, none, none⟩)
      else .ok (outName, outVersion, hash, none)

/-- The `StatusCode::OK` handler of the no-version branch (lines 38-129):
read `dist-tags.latest`, count its dependencies, and process its `dist`
object; the outcome and the materialized package both use the raw
specifier as name and `latest` as version. -/
def okNoVersion (pkg : Str) (doc : JsonValue) : RunOutcome :=
  match ((doc.idx (str "dist-tags")).idx (str "latest")).asStr with
  | none => .fail (.versionLookupError pkg)
  | some latest =>
    let numDeps := depCount doc latest
    match (((doc.idx (str "versions")).idx latest).idx (str "dist")).asObject with
    | none => .fail (.hashLookupError latest)
    | some dist => distOutcome pkg latest pkg latest dist numDeps

/-- `value.keys().filter_map(|k| Version::new(k).parse().ok()).filter(|v| version_requirement.test(v))`:
the version keys that parse as semver and satisfy the range. -/
def survivors {V : Type} (sv : Semver V) (test : V → Bool)
    (fields : List (Str × JsonValue)) : List V :=
  ((fields.map Prod.fst).filterMap sv.parseVer).filter test

/-- The `StatusCode::OK` handler shared by the two versioned branches:
when `versions` is an object, filter its keys through semver parsing and the
range test, sort descending, and resolve the largest survivor; `none` is
returned when `versions` is not an object (the two branches differ in how
they continue from that case). -/
def okVersioned {V : Type} (sv : Semver V) (test : V → Bool)
    (pkg reqName inputVersion : Str) (doc : JsonValue) : Option RunOutcome :=
  match (doc.idx (str "versions")).asObject with
  | none => none
  | some fields =>
    match sortDescBy sv.le (survivors sv test fields) with
    | [] => some (.fail (.versionLookupError pkg))
    | v :: _ =>
      match (((doc.idx (str "versions")).idx (sv.render v)).idx (str "dist")).asObject with
      | none => some (.fail (.hashLookupError (sv.render v)))
      | some dist =>
        some (distOutcome pkg (sv.render v) reqName inputVersion dist (depCount doc (sv.render v)))

/-- The retry loop of the no-version branch (lines 25-150): 200 is handled
by `okNoVersion`; 404 fails with `TooManyRequests` once the retry counter
reaches the maximum; any other status fails with `PackageNotFound` once the
counter reaches the maximum; otherwise the counter is incremented and the
request reissued. -/
def loopA (net : Network) (maxRetries : Nat) (pkg : Str) : Nat → Nat → RunOutcome
  | _, 0 => .diverge
  | retries, fuel + 1 =>
    if (net (urlFor pkg) retries).status = 200 then okNoVersion pkg (net (urlFor pkg) retries).body
    else if (net (urlFor pkg) retries).status = 404 then
      if retries = maxRetries then .fail (.tooManyRequests (urlFor pkg) pkg)
      else loopA net maxRetries pkg (retries + 1) fuel
    else
      if retries = maxRetries then .fail (.packageNotFound (urlFor pkg) pkg)
      else loopA net maxRetries pkg (retries + 1) fuel

/-- The retry loop of the scoped versioned branch (lines 157-304): a
non-object `versions` on 200 fails with `VersionLookupError`; 404 fails with
`TooManyRequests` at the retry cap; any other status fails immediately with
`PackageNotFound` (no cap check). -/
def loopB {V : Type} (sv : Semver V) (test : V → Bool) (net : Network)
    (maxRetries : Nat) (pkg inputVersion : Str) : Nat → Nat → RunOutcome
  | _, 0 => .diverge
  | retries, fuel + 1 =>
    if (net (urlFor (requestName pkg inputVersion)) retries).status = 200 then
      match okVersioned sv test pkg (requestName pkg inputVersion) inputVersion
          (net (urlFor (requestName pkg inputVersion)) retries).body with
      | some out => out
      | none => .fail (.versionLookupError pkg)
    else if (net (urlFor (requestName pkg inputVersion)) retries).status = 404 then
      if retries = maxRetries then .fail (.tooManyRequests (urlFor pkg) pkg)
      else loopB sv test net maxRetries pkg inputVersion (retries + 1) fuel
    else .fail (.packageNotFound (urlFor pkg) pkg)

/-- The retry loop of the unscoped versioned branch (lines 310-457): a
non-object `versions` on 200 falls through (`None => {}`) and reissues the
request with no cap check; 404 fails with `VersionLookupError` at the retry
cap; any other status fails with `PackageNotFound` at the cap. -/
def loopC {V : Type} (sv : Semver V) (test : V → Bool) (net : Network)
    (maxRetries : Nat) (pkg inputVersion : Str) : Nat → Nat → RunOutcome
  | _, 0 => .diverge
  | retries, fuel + 1 =>
    if (net (urlFor (requestName pkg inputVersion)) retries).status = 200 then
      match okVersioned sv test pkg (requestName pkg inputVersion) inputVersion
          (net (urlFor (requestName pkg inputVersion)) retries).body with
      | some out => out
      | none => loopC sv test net maxRetries pkg inputVersion (retries + 1) fuel
    else if (net (urlFor (requestName pkg inputVersion)) retries).status = 404 then
      if retries = maxRetries then .fail (.versionLookupError pkg)
      else loopC sv test net maxRetries pkg inputVersion (retries + 1) fuel
    else
      if retries = maxRetries then .fail (.packageNotFound (urlFor pkg) pkg)
      else loopC sv test net maxRetries pkg inputVersion (retries + 1) fuel

/-- `get_version`: classify the specifier by its `@` count and `/` presence
and run the corresponding branch.  A failing `Range::new(..).parse().unwrap()`
is a Rust panic. -/
def getVersion {V : Type} (sv : Semver V) (net : Network)
    (maxRetries fuel : Nat) (pkg : Str) : RunOutcome :=
  if (pkg.count '@' = 1 ∧ '/' ∈ pkg) ∨ (pkg.count '@' = 0 ∧ '/' ∉ pkg) then
    loopA net maxRetries pkg 0 fuel
  else if pkg.count '@' = 2 ∧ '/' ∈ pkg then
    match sv.rangeParse (constraint2 pkg) with
    | none => .panic
    | some test => loopB sv test net maxRetries pkg (constraint2 pkg) 0 fuel
  else if pkg.count '@' = 1 ∧ '/' ∉ pkg then
    match sv.rangeParse (constraint1 pkg) with
    | none => .panic
    | some test => loopC sv test net maxRetries pkg (constraint1 pkg) 0 fuel
  else .fail .unknownError

/-- Result of the batch resolver `get_versions`. -/
inductive RunBatch where
  | ok (outs : List ResolutionOut) : RunBatch
  | fail (e : VoltError) : RunBatch
  | diverge : RunBatch
  | panic : RunBatch
deriving DecidableEq

/-- `get_versions`: one resolution per specifier collected through
`FuturesOrdered`/`try_collect`.  The stream yields results in input order
whatever the completion order, and `try_collect` stops at the first error it
yields and returns no partial list, which this order-deterministic fold
captures. -/
def getVersions {V : Type} (sv : Semver V) (net : Network)
    (maxRetries fuel : Nat) : List Str → RunBatch
  | [] => .ok []
  | p :: ps =>
    match getVersion sv net maxRetries fuel p with
    | .ok o =>
      match getVersions sv net maxRetries fuel ps with
      | .ok os => .ok (o :: os)
      | r => r
    | .fail e => .fail e
    | .diverge => .diverge
    | .panic => .panic

/-- Digit-string parser for the concrete semver instance used by witnesses. -/
def parseNatStr (s : Str) : Option Nat :=
  if s ≠ [] ∧ s.all (fun c => c.isDigit) then
    some (s.foldl (fun a c => a * 10 + (c.toNat - 48)) 0)
  else none

/-- Concrete `major.minor.patch` parser encoding a version as
`major * 10^6 + minor * 10^3 + patch` (each component below 1000); a faithful
stand-in for `semver_rs` parsing on plain dotted triples. -/
def parseV3 (s : Str) : Option Nat :=
  match splitOnChar '.' s with
  | [a, b, c] =>
    match parseNatStr a, parseNatStr b, parseNatStr c with
    | some x, some y, some z =>
      if x < 1000 ∧ y < 1000 ∧ z < 1000 then some (x * 1000000 + y * 1000 + z) else none
    | _, _, _ => none
  | _ => none

/-- Rendering for the concrete semver instance (inverse of `parseV3`). -/
def renderV3 (n : Nat) : Str :=
  natToStr (n / 1000000) ++ '.' :: natToStr (n / 1000 % 1000) ++ '.' :: natToStr (n % 1000)

/-- The range `^1.0.0` in the concrete instance. -/
def rangeCaret100 (v : Nat) : Bool := decide (1000000 ≤ v ∧ v < 2000000)

/-- A concrete `Semver` instance for witnesses, understanding plain triples
and the two ranges `^1.0.0` and `1.0.0`. -/
def miniSemver : Semver Nat where
  parseVer := parseV3
  render := renderV3
  le := fun a b => Nat.ble a b
  rangeParse := fun s =>
    if s = str "^1.0.0" then some rangeCaret100
    else if s = str "1.0.0" then some (fun v => v == 1000000)
    else none

/-- A `dist` object with a structured sha512 integrity and a tarball. -/
def miniDist : JsonValue :=
  .obj [(str "integrity", .jstr (str "sha512-deadbeef")), (str "tarball", .jstr (str "T"))]

/-- Version metadata of a leaf version (no `dependencies` key). -/
def miniMeta : JsonValue := .obj [(str "dist", miniDist)]

/-- Version metadata of a non-leaf version (one dependency). -/
def miniMetaDeps : JsonValue :=
  .obj [(str "dependencies", .obj [(str "lodash", .jstr (str "^4.0.0"))]), (str "dist", miniDist)]

/-- A registry document with versions 1.0.0, 1.2.0 and 2.0.0, all leaves. -/
def miniDoc : JsonValue :=
  .obj [(str "versions",
    .obj [(str "1.0.0", miniMeta), (str "1.2.0", miniMeta), (str "2.0.0", miniMeta)])]

/-- A registry document for the no-version branch: `latest` is 1.0.0. -/
def miniDocA : JsonValue :=
  .obj [(str "dist-tags", .obj [(str "latest", .jstr (str "1.0.0"))]),
    (str "versions", .obj [(str "1.0.0", miniMeta)])]

/-- A network answering every request with the same OK document. -/
def netOf (doc : JsonValue) : Network := fun _ _ => ⟨200, doc⟩

/-- A network answering every request with status 404. -/
def net404 : Network := fun _ _ => ⟨404, .null⟩

theorem mem_insertDesc {V : Type} (le : V → V → Bool) (x : V) :
    ∀ (l : List V) (y : V), y ∈ insertDesc le x l ↔ y = x ∨ y ∈ l := by
  intro l
  induction l with
  | nil => intro y; simp [insertDesc]
  | cons a l ih =>
    intro y
    simp only [insertDesc]
    split
    · simp [List.mem_cons]
    · simp only [List.mem_cons, ih]
      tauto

/-- The head of the descending sort of a nonempty list is a maximum of the
list (for any total, transitive boolean comparison). -/
theorem sortDescBy_max {V : Type} (le : V → V → Bool)
    (htot : ∀ a b, le a b = true ∨ le b a = true)
    (htrans : ∀ a b c, le a b = true → le b c = true → le a c = true) :
    ∀ l : List V, l ≠ [] →
      ∃ m t, sortDescBy le l = m :: t ∧ m ∈ l ∧ ∀ x ∈ l, le x m = true := by
  intro l
  induction l with
  | nil => intro h; exact absurd rfl h
  | cons a l ih =>
    intro _
    have hfold : sortDescBy le (a :: l) = insertDesc le a (sortDescBy le l) := rfl
    rcases Classical.em (l = []) with hnil | hne
    · subst hnil
      refine ⟨a, [], by simp [hfold, sortDescBy, insertDesc], by simp, ?_⟩
      intro x hx
      rcases List.mem_singleton.mp hx with rfl
      rcases htot x x with h | h <;> exact h
    · obtain ⟨m, t, hsort, hmem, hmax⟩ := ih hne
      rw [hfold, hsort]
      simp only [insertDesc]
      by_cases hcmp : le m a = true
      · rw [if_pos hcmp]
        refine ⟨a, m :: t, rfl, by simp, ?_⟩
        intro x hx
        rcases List.mem_cons.mp hx with rfl | hx
        · rcases htot x x with h | h <;> exact h
        · exact htrans x m a (hmax x hx) hcmp
      · rw [if_neg hcmp]
        have ham : le a m = true := by
          rcases htot m a with h | h
          · exact absurd h hcmp
          · exact h
        refine ⟨m, insertDesc le a t, rfl, List.mem_cons_of_mem a hmem, ?_⟩
        intro x hx
        rcases List.mem_cons.mp hx with rfl | hx
        · exact ham
        · exact hmax x hx

/-- Inversion of the shared `dist` block on success: the outcome carries the
branch's name and version arguments, the package is materialized exactly
when the dependency count is zero, and a materialized package carries the
branch's package-side name and version and the normalized hash. -/
theorem distOutcome_ok {oN oV vN vV : Str} {dist : List (Str × JsonValue)}
    {nd : Nat} {n v h : Str} {p : Option VoltPackage}
    (hok : distOutcome oN oV vN vV dist nd = .ok (n, v, h, p)) :
    n = oN ∧ v = oV ∧ (p.isSome = true ↔ nd = 0) ∧
      ∀ vp, p = some vp → vp.name = vN ∧ vp.version = vV ∧ vp.integrity = h := by
  unfold distOutcome at hok
  split at hok
  · exact absurd hok (by simp)
  · split at hok
    · exact absurd hok (by simp)
    · split at hok
      · rename_i hnd
        split at hok
        · exact absurd hok (by simp)
        · simp only [RunOutcome.ok.injEq, Prod.mk.injEq] at hok
          obtain ⟨h1, h2, h3, h4⟩ := hok
          refine ⟨h1.symm, h2.symm, by simp [← h4, hnd], ?_⟩
          intro vp hvp
          rw [← h4] at hvp
          simp only [Option.some.injEq] at hvp
          subst hvp
          exact ⟨rfl, rfl, h3⟩
      · rename_i hnd
        simp only [RunOutcome.ok.injEq, Prod.mk.injEq] at hok
        obtain ⟨h1, h2, h3, h4⟩ := hok
        refine ⟨h1.symm, h2.symm, by simp [← h4, hnd], ?_⟩
        intro vp hvp
        rw [← h4] at hvp
        exact absurd hvp (by simp)

/-- Inversion of the no-version OK handler on success. -/
theorem okNoVersion_ok {pkg : Str} {doc : JsonValue} {n v h : Str}
    {p : Option VoltPackage}
    (hok : okNoVersion pkg doc = .ok (n, v, h, p)) :
    ((doc.idx (str "dist-tags")).idx (str "latest")).asStr = some v ∧
      n = pkg ∧ (p.isSome = true ↔ depCount doc v = 0) ∧
      ∀ vp, p = some vp → vp.name = pkg ∧ vp.version = v ∧ vp.integrity = h := by
  unfold okNoVersion at hok
  split at hok
  · exact absurd hok (by simp)
  · rename_i latest hlatest
    split at hok
    · exact absurd hok (by simp)
    · obtain ⟨h1, h2, h3, h4⟩ := distOutcome_ok hok
      subst h2
      exact ⟨hlatest, h1, h3, h4⟩

/-- Inversion of the versioned OK handler on success (no ordering
assumptions): the outcome names the raw specifier, the resolved version is
the rendering of the head survivor of the descending sort, materialization
follows the dependency count at the resolved version, and a materialized
package stores the replaced request name and the raw range text. -/
theorem okVersioned_ok {V : Type} {sv : Semver V} {test : V → Bool}
    {pkg reqName inputVersion : Str} {doc : JsonValue} {n v h : Str}
    {p : Option VoltPackage}
    (hok : okVersioned sv test pkg reqName inputVersion doc = some (.ok (n, v, h, p))) :
    ∃ fields m t, (doc.idx (str "versions")).asObject = some fields ∧
      sortDescBy sv.le (survivors sv test fields) = m :: t ∧
      n = pkg ∧ v = sv.render m ∧ (p.isSome = true ↔ depCount doc v = 0) ∧
      ∀ vp, p = some vp → vp.name = reqName ∧ vp.version = inputVersion ∧ vp.integrity = h := by
  unfold okVersioned at hok
  split at hok
  · exact absurd hok (by simp)
  · rename_i fields hfields
    split at hok
    · exact absurd hok (by simp)
    · rename_i m t hsort
      split at hok
      · exact absurd hok (by simp)
      · simp only [Option.some.injEq] at hok
        obtain ⟨h1, h2, h3, h4⟩ := distOutcome_ok hok
        subst h2
        exact ⟨fields, m, t, hfields, hsort, h1, rfl, h3, h4⟩

/-- A successful no-version loop run comes from an OK response handled by
`okNoVersion`. -/
theorem loopA_ok {net : Network} {maxR : Nat} {pkg : Str} :
    ∀ {fuel retries : Nat} {out : ResolutionOut},
      loopA net maxR pkg retries fuel = .ok out →
      ∃ i, (net (urlFor pkg) i).status = 200 ∧
        okNoVersion pkg (net (urlFor pkg) i).body = .ok out := by
  intro fuel
  induction fuel with
  | zero => intro retries out h; exact absurd h (by simp [loopA])
  | succ fuel ih =>
    intro retries out h
    simp only [loopA] at h
    by_cases h200 : (net (urlFor pkg) retries).status = 200
    · rw [if_pos h200] at h
      exact ⟨retries, h200, h⟩
    · rw [if_neg h200] at h
      by_cases h404 : (net (urlFor pkg) retries).status = 404
      · rw [if_pos h404] at h
        by_cases hmax : retries = maxR
        · rw [if_pos hmax] at h; exact absurd h (by simp)
        · rw [if_neg hmax] at h; exact ih h
      · rw [if_neg h404] at h
        by_cases hmax : retries = maxR
        · rw [if_pos hmax] at h; exact absurd h (by simp)
        · rw [if_neg hmax] at h; exact ih h

/-- A successful scoped versioned loop run comes from an OK response on
which `okVersioned` succeeded. -/
theorem loopB_ok {V : Type} {sv : Semver V} {test : V → Bool} {net : Network}
    {maxR : Nat} {pkg inputVersion : Str} :
    ∀ {fuel retries : Nat} {out : ResolutionOut},
      loopB sv test net maxR pkg inputVersion retries fuel = .ok out →
      ∃ i, (net (urlFor (requestName pkg inputVersion)) i).status = 200 ∧
        okVersioned sv test pkg (requestName pkg inputVersion) inputVersion
          (net (urlFor (requestName pkg inputVersion)) i).body = some (.ok out) := by
  intro fuel
  induction fuel with
  | zero => intro retries out h; exact absurd h (by simp [loopB])
  | succ fuel ih =>
    intro retries out h
    simp only [loopB] at h
    by_cases h200 : (net (urlFor (requestName pkg inputVersion)) retries).status = 200
    · rw [if_pos h200] at h
      refine ⟨retries, h200, ?_⟩
      split at h
      · rename_i o ho; rw [ho, h]
      · exact absurd h (by simp)
    · rw [if_neg h200] at h
      by_cases h404 : (net (urlFor (requestName pkg inputVersion)) retries).status = 404
      · rw [if_pos h404] at h
        by_cases hmax : retries = maxR
        · rw [if_pos hmax] at h; exact absurd h (by simp)
        · rw [if_neg hmax] at h; exact ih h
      · rw [if_neg h404] at h; exact absurd h (by simp)

/-- A successful unscoped versioned loop run comes from an OK response on
which `okVersioned` succeeded. -/
theorem loopC_ok {V : Type} {sv : Semver V} {test : V → Bool} {net : Network}
    {maxR : Nat} {pkg inputVersion : Str} :
    ∀ {fuel retries : Nat} {out : ResolutionOut},
      loopC sv test net maxR pkg inputVersion retries fuel = .ok out →
      ∃ i, (net (urlFor (requestName pkg inputVersion)) i).status = 200 ∧
        okVersioned sv test pkg (requestName pkg inputVersion) inputVersion
          (net (urlFor (requestName pkg inputVersion)) i).body = some (.ok out) := by
  intro fuel
  induction fuel with
  | zero => intro retries out h; exact absurd h (by simp [loopC])
  | succ fuel ih =>
    intro retries out h
    simp only [loopC] at h
    by_cases h200 : (net (urlFor (requestName pkg inputVersion)) retries).status = 200
    · rw [if_pos h200] at h
      split at h
      · rename_i o ho
        exact ⟨retries, h200, by rw [ho, h]⟩
      · exact ih h
    · rw [if_neg h200] at h
      by_cases h404 : (net (urlFor (requestName pkg inputVersion)) retries).status = 404
      · rw [if_pos h404] at h
        by_cases hmax : retries = maxR
        · rw [if_pos hmax] at h; exact absurd h (by simp)
        · rw [if_neg hmax] at h; exact ih h
      · rw [if_neg h404] at h
        by_cases hmax : retries = maxR
        · rw [if_pos hmax] at h; exact absurd h (by simp)
        · rw [if_neg hmax] at h; exact ih h

/-- `okVersioned` yields nothing when `versions` is not an object. -/
theorem okVersioned_none {V : Type} (sv : Semver V) (test : V → Bool)
    (pkg reqName inputVersion : Str) {doc : JsonValue}
    (hobj : (doc.idx (str "versions")).asObject = none) :
    okVersioned sv test pkg reqName inputVersion doc = none := by
  unfold okVersioned
  rw [hobj]

/-- Exhausting the retry budget on constant 404s in the no-version branch
yields `TooManyRequests` naming the package. -/
theorem loopA_404 {net : Network} {maxR : Nat} {pkg : Str}
    (h404 : ∀ i, (net (urlFor pkg) i).status = 404) :
    ∀ fuel retries, retries ≤ maxR → maxR - retries < fuel →
      loopA net maxR pkg retries fuel = .fail (.tooManyRequests (urlFor pkg) pkg) := by
  intro fuel
  induction fuel with
  | zero => intro retries _ hlt; omega
  | succ fuel ih =>
    intro retries hle hlt
    simp only [loopA]
    rw [h404 retries]
    rw [if_neg (by omega), if_pos rfl]
    by_cases hmax : retries = maxR
    · rw [if_pos hmax]
    · rw [if_neg hmax]
      exact ih (retries + 1) (by omega) (by omega)

/-- Exhausting the retry budget on constant 404s in the scoped versioned
branch yields `TooManyRequests` naming the raw specifier. -/
theorem loopB_404 {V : Type} {sv : Semver V} {test : V → Bool} {net : Network}
    {maxR : Nat} {pkg inputVersion : Str}
    (h404 : ∀ i, (net (urlFor (requestName pkg inputVersion)) i).status = 404) :
    ∀ fuel retries, retries ≤ maxR → maxR - retries < fuel →
      loopB sv test net maxR pkg inputVersion retries fuel =
        .fail (.tooManyRequests (urlFor pkg) pkg) := by
  intro fuel
  induction fuel with
  | zero => intro retries _ hlt; omega
  | succ fuel ih =>
    intro retries hle hlt
    simp only [loopB]
    rw [h404 retries]
    rw [if_neg (by omega), if_pos rfl]
    by_cases hmax : retries = maxR
    · rw [if_pos hmax]
    · rw [if_neg hmax]
      exact ih (retries + 1) (by omega) (by omega)

/-- Exhausting the retry budget on constant 404s in the unscoped versioned
branch yields `VersionLookupError` — not a too-many-requests error. -/
theorem loopC_404 {V : Type} {sv : Semver V} {test : V → Bool} {net : Network}
    {maxR : Nat} {pkg inputVersion : Str}
    (h404 : ∀ i, (net (urlFor (requestName pkg inputVersion)) i).status = 404) :
    ∀ fuel retries, retries ≤ maxR → maxR - retries < fuel →
      loopC sv test net maxR pkg inputVersion retries fuel =
        .fail (.versionLookupError pkg) := by
  intro fuel
  induction fuel with
  | zero => intro retries _ hlt; omega
  | succ fuel ih =>
    intro retries hle hlt
    simp only [loopC]
    rw [h404 retries]
    rw [if_neg (by omega), if_pos rfl]
    by_cases hmax : retries = maxR
    · rw [if_pos hmax]
    · rw [if_neg hmax]
      exact ih (retries + 1) (by omega) (by omega)

/-- The scoped versioned branch fails on the first response whose status is
neither 200 nor 404, with no retry and no cap check. -/
theorem loopB_other_immediate {V : Type} {sv : Semver V} {test : V → Bool}
    {net : Network} {maxR : Nat} {pkg inputVersion : Str} {retries fuel : Nat}
    (h200 : (net (urlFor (requestName pkg inputVersion)) retries).status ≠ 200)
    (h404 : (net (urlFor (requestName pkg inputVersion)) retries).status ≠ 404) :
    loopB sv test net maxR pkg inputVersion retries (fuel + 1) =
      .fail (.packageNotFound (urlFor pkg) pkg) := by
  simp only [loopB]
  rw [if_neg h200, if_neg h404]

/-- The unscoped versioned branch instead continues looping on a response
whose status is neither 200 nor 404 while the counter is below the cap. -/
theorem loopC_other_step {V : Type} {sv : Semver V} {test : V → Bool}
    {net : Network} {maxR : Nat} {pkg inputVersion : Str} {retries fuel : Nat}
    (h200 : (net (urlFor (requestName pkg inputVersion)) retries).status ≠ 200)
    (h404 : (net (urlFor (requestName pkg inputVersion)) retries).status ≠ 404)
    (hmax : retries ≠ maxR) :
    loopC sv test net maxR pkg inputVersion retries (fuel + 1) =
      loopC sv test net maxR pkg inputVersion (retries + 1) fuel := by
  simp only [loopC]
  rw [if_neg h200, if_neg h404, if_neg hmax]

/-- Exhausting the retry budget on constant non-200/non-404 statuses in the
unscoped versioned branch yields `PackageNotFound`. -/
theorem loopC_other {V : Type} {sv : Semver V} {test : V → Bool} {net : Network}
    {maxR : Nat} {pkg inputVersion : Str}
    (hst : ∀ i, (net (urlFor (requestName pkg inputVersion)) i).status ≠ 200 ∧
      (net (urlFor (requestName pkg inputVersion)) i).status ≠ 404) :
    ∀ fuel retries, retries ≤ maxR → maxR - retries < fuel →
      loopC sv test net maxR pkg inputVersion retries fuel =
        .fail (.packageNotFound (urlFor pkg) pkg) := by
  intro fuel
  induction fuel with
  | zero => intro retries _ hlt; omega
  | succ fuel ih =>
    intro retries hle hlt
    simp only [loopC]
    rw [if_neg (hst retries).1, if_neg (hst retries).2]
    by_cases hmax : retries = maxR
    · rw [if_pos hmax]
    · rw [if_neg hmax]
      exact ih (retries + 1) (by omega) (by omega)

/-- When every response is OK with a non-object `versions`, the unscoped
versioned branch never returns: the OK arm falls through with no error and
no cap check, whatever the fuel. -/
theorem loopC_diverge {V : Type} {sv : Semver V} {test : V → Bool}
    {net : Network} {maxR : Nat} {pkg inputVersion : Str}
    (hnet : ∀ i, (net (urlFor (requestName pkg inputVersion)) i).status = 200 ∧
      ((net (urlFor (requestName pkg inputVersion)) i).body.idx (str "versions")).asObject = none) :
    ∀ fuel retries, loopC sv test net maxR pkg inputVersion retries fuel = .diverge := by
  intro fuel
  induction fuel with
  | zero => intro retries; rfl
  | succ fuel ih =>
    intro retries
    simp only [loopC]
    rw [if_pos (hnet retries).1,
      okVersioned_none sv test pkg (requestName pkg inputVersion) inputVersion (hnet retries).2]
    exact ih (retries + 1)

/-- Under the same responses, the scoped versioned branch returns a
version-lookup error on its first iteration. -/
theorem loopB_nonobject {V : Type} {sv : Semver V} {test : V → Bool}
    {net : Network} {maxR : Nat} {pkg inputVersion : Str} {retries fuel : Nat}
    (h200 : (net (urlFor (requestName pkg inputVersion)) retries).status = 200)
    (hobj : ((net (urlFor (requestName pkg inputVersion)) retries).body.idx (str "versions")).asObject = none) :
    loopB sv test net maxR pkg inputVersion retries (fuel + 1) =
      .fail (.versionLookupError pkg) := by
  simp only [loopB]
  rw [if_pos h200,
    okVersioned_none sv test pkg (requestName pkg inputVersion) inputVersion hobj]

/-- The dispatcher routes no-version shapes to the no-version loop. -/
theorem getVersion_shapeA {V : Type} {sv : Semver V} {net : Network}
    {maxR fuel : Nat} {pkg : Str}
    (hshape : (pkg.count '@' = 1 ∧ '/' ∈ pkg) ∨ (pkg.count '@' = 0 ∧ '/' ∉ pkg)) :
    getVersion sv net maxR fuel pkg = loopA net maxR pkg 0 fuel := by
  simp only [getVersion]
  rw [if_pos hshape]

/-- The dispatcher routes scoped versioned shapes through the range parser
to the scoped versioned loop. -/
theorem getVersion_shapeB {V : Type} {sv : Semver V} {net : Network}
    {maxR fuel : Nat} {pkg : Str} {test : V → Bool}
    (hcount : pkg.count '@' = 2) (hslash : '/' ∈ pkg)
    (hrange : sv.rangeParse (constraint2 pkg) = some test) :
    getVersion sv net maxR fuel pkg = loopB sv test net maxR pkg (constraint2 pkg) 0 fuel := by
  simp only [getVersion]
  rw [if_neg (by rw [hcount]; rintro (⟨h1, _⟩ | ⟨h1, _⟩) <;> omega),
    if_pos ⟨hcount, hslash⟩, hrange]

/-- The dispatcher routes unscoped versioned shapes through the range parser
to the unscoped versioned loop. -/
theorem getVersion_shapeC {V : Type} {sv : Semver V} {net : Network}
    {maxR fuel : Nat} {pkg : Str} {test : V → Bool}
    (hcount : pkg.count '@' = 1) (hslash : '/' ∉ pkg)
    (hrange : sv.rangeParse (constraint1 pkg) = some test) :
    getVersion sv net maxR fuel pkg = loopC sv test net maxR pkg (constraint1 pkg) 0 fuel := by
  simp only [getVersion]
  rw [if_neg (by rw [hcount]; rintro (⟨_, h2⟩ | ⟨h1, _⟩) <;> first | exact hslash h2 | omega),
    if_neg (by rw [hcount]; rintro ⟨h1, _⟩; omega),
    if_pos ⟨hcount, hslash⟩, hrange]

theorem splitOnChar_sepFree {sep : Char} : ∀ {l : Str}, sep ∉ l → splitOnChar sep l = [l] := by
  intro l
  induction l with
  | nil => intro _; rfl
  | cons c cs ih =>
    intro hfree
    have hc : ¬ c = sep := fun h => hfree (h ▸ List.mem_cons_self c cs)
    have hcs : sep ∉ cs := fun h => hfree (List.mem_cons_of_mem c h)
    simp only [splitOnChar]
    rw [if_neg hc, ih hcs]

theorem splitOnChar_append {sep : Char} :
    ∀ {xs : Str} (ys : Str), sep ∉ xs →
      splitOnChar sep (xs ++ sep :: ys) = xs :: splitOnChar sep ys := by
  intro xs
  induction xs with
  | nil =>
    intro ys _
    simp [splitOnChar]
  | cons c cs ih =>
    intro ys hfree
    have hc : ¬ c = sep := fun h => hfree (h ▸ List.mem_cons_self c cs)
    have hcs : sep ∉ cs := fun h => hfree (List.mem_cons_of_mem c h)
    simp only [List.cons_append, splitOnChar, List.append_eq]
    rw [if_neg hc, ih ys hcs]

theorem takeWhile_append_stop {p : Char → Bool} :
    ∀ {as : Str} {b : Char} (bs : Str), (∀ x ∈ as, p x = true) → p b = false →
      (as ++ b :: bs).takeWhile p = as := by
  intro as
  induction as with
  | nil =>
    intro b bs _ hb
    simp [List.takeWhile, hb]
  | cons a as ih =>
    intro b bs hall hb
    have ha : p a = true := hall a (List.mem_cons_self a as)
    simp only [List.cons_append, List.takeWhile, ha, List.append_eq]
    rw [ih bs (fun x hx => hall x (List.mem_cons_of_mem a hx)) hb]

/-- The text after the last `@` of `xs ++ '@' :: c` is `c` when `c` itself
has no `@`. -/
theorem afterLastAt_append {xs c : Str} (hc : '@' ∉ c) :
    afterLastAt (xs ++ '@' :: c) = c := by
  unfold afterLastAt
  rw [List.reverse_append, List.reverse_cons, List.append_assoc]
  have hall : ∀ x ∈ c.reverse, (fun ch => decide (ch ≠ '@')) x = true := by
    intro x hx
    simp only [decide_eq_true_eq]
    intro heq
    exact hc (heq ▸ List.mem_reverse.mp hx)
  rw [List.singleton_append, takeWhile_append_stop xs.reverse hall (by simp)]
  exact List.reverse_reverse c

theorem pat_not_prefix_of_cons {c base : Str} (hc : '@' ∉ c)
    (hinf : ¬ ('@' :: c) <:+: base) (hne : base ≠ []) :
    ¬ ('@' :: c) <+: (base ++ '@' :: c) := by
  intro hpre
  by_cases hlen : ('@' :: c).length ≤ base.length
  · apply hinf
    apply List.IsPrefix.isInfix
    rw [List.prefix_iff_eq_take] at hpre ⊢
    rw [List.take_append_of_le_length hlen] at hpre
    exact hpre
  · push_neg at hlen
    have hb : 0 < base.length := List.length_pos.mpr hne
    have he := hpre.getElem (n := base.length) hlen
    rw [List.getElem_append_right (le_refl base.length)] at he
    simp only [Nat.sub_self, List.getElem_cons_zero] at he
    obtain ⟨k, hk⟩ : ∃ k, base.length = k + 1 := ⟨base.length - 1, by omega⟩
    have he3 : ('@' :: c)[base.length]? = some '@' := by
      rw [List.getElem?_eq_getElem hlen, he]
    rw [hk, List.getElem?_cons_succ] at he3
    exact hc (List.getElem?_mem he3)

theorem replaceAllAux_append_self {c : Str} (hc : '@' ∉ c) :
    ∀ (fuel : Nat) (base : Str), (base ++ '@' :: c).length ≤ fuel →
      ¬ ('@' :: c) <:+: base →
      replaceAllAux ('@' :: c) [] fuel (base ++ '@' :: c) = base := by
  intro fuel
  induction fuel with
  | zero =>
    intro base hlen _
    exact absurd hlen (by simp)
  | succ fuel ih =>
    intro base hlen hinf
    cases base with
    | nil =>
      simp only [List.nil_append, replaceAllAux]
      rw [if_pos (List.isPrefixOf_iff_prefix.mpr List.prefix_rfl)]
      rw [List.drop_length]
      cases fuel <;> rfl
    | cons b bs =>
      have hnp : ¬ ('@' :: c) <+: (b :: (bs ++ '@' :: c)) := by
        rw [← List.cons_append]
        exact pat_not_prefix_of_cons hc hinf (by simp)
      simp only [List.cons_append, replaceAllAux, List.append_eq]
      rw [if_neg (fun h => hnp (List.isPrefixOf_iff_prefix.mp h))]
      have hlen2 : (bs ++ '@' :: c).length ≤ fuel := by
        simp only [List.length_append, List.length_cons] at hlen ⊢
        omega
      rw [ih bs hlen2 (fun hinf2 => hinf (List.infix_cons hinf2))]

/-- `replace` removes a trailing `@range` suffix whole when `@range` occurs
nowhere else in the specifier. -/
theorem replaceAll_append_self {base c : Str} (hc : '@' ∉ c)
    (hinf : ¬ ('@' :: c) <:+: base) :
    replaceAll ('@' :: c) [] (base ++ '@' :: c) = base :=
  replaceAllAux_append_self hc _ base (le_refl _) hinf

/-- The algorithm-name tag the source re-prefixes after hex rendering: only
`sha1` and `sha512` are handled; every other algorithm gets no tag. -/
def algoTag : Algorithm → Str
  | .sha1 => str "sha1-"
  | .sha512 => str "sha512-"
  | _ => []

/-- A lowercase hexadecimal digit character. -/
def isLowerHexChar (c : Char) : Bool := decide (c ∈ str "0123456789abcdef")

theorem lowerHexChar_not_ws {c : Char} (hc : isLowerHexChar c = true) :
    c.isWhitespace = false := by
  have hall : ∀ x ∈ str "0123456789abcdef", x.isWhitespace = false := by decide
  have hc2 : decide (c ∈ str "0123456789abcdef") = true := hc
  exact hall c (of_decide_eq_true hc2)

theorem hexDigit_lower (v : Nat) : isLowerHexChar (hexDigit v) = true := by
  by_cases hv : v < 16
  · revert hv
    revert v
    decide
  · unfold hexDigit
    rw [List.getD_eq_default]
    · decide
    · have hlen : (str "0123456789abcdef").length = 16 := by decide
      omega

theorem hexEncode_lower (bs : List Nat) : (hexEncode bs).all isLowerHexChar = true := by
  induction bs with
  | nil => rfl
  | cons b bs ih =>
    simp only [hexEncode, List.foldr_cons] at ih ⊢
    simp [List.all_cons, hexDigit_lower, ih]

theorem splitWs_wsFree : ∀ {l : Str}, l ≠ [] → (∀ c ∈ l, c.isWhitespace = false) →
    splitWs l = [l] := by
  intro l
  induction l with
  | nil => intro h _; exact absurd rfl h
  | cons c cs ih =>
    intro _ hall
    have hc : c.isWhitespace = false := hall c (List.mem_cons_self c cs)
    simp only [splitWs, hc, Bool.false_eq_true, if_false]
    cases cs with
    | nil => rfl
    | cons d ds =>
      have hd : d.isWhitespace = false := hall d (by simp)
      rw [ih (by simp) (fun x hx => hall x (List.mem_cons_of_mem c hx))]
      simp [hd]

theorem splitAtFirst_append {sep : Char} :
    ∀ {xs : Str} (ys : Str), sep ∉ xs →
      splitAtFirst sep (xs ++ sep :: ys) = some (xs, ys) := by
  intro xs
  induction xs with
  | nil => intro ys _; simp [splitAtFirst]
  | cons c cs ih =>
    intro ys hfree
    have hc : ¬ c = sep := fun h => hfree (h ▸ List.mem_cons_self c cs)
    have hcs : sep ∉ cs := fun h => hfree (List.mem_cons_of_mem c h)
    simp only [List.cons_append, splitAtFirst, List.append_eq]
    rw [if_neg hc, ih ys hcs]

theorem strength_le_zero {a : Algorithm} (h : a.strength ≤ 0) : a = .sha1 := by
  cases a <;> simp [Algorithm.strength] at h ⊢

theorem strength_ge_three {a : Algorithm} (h : 3 ≤ a.strength) : a = .sha512 := by
  cases a <;> simp [Algorithm.strength] at h ⊢

theorem pickFold_ge (hs : List SsriHash) :
    ∀ acc : Algorithm,
      acc.strength ≤ (hs.foldl (fun acc h =>
        if acc.strength < h.algorithm.strength then h.algorithm else acc) acc).strength ∧
      ∀ h ∈ hs, h.algorithm.strength ≤ (hs.foldl (fun acc h =>
        if acc.strength < h.algorithm.strength then h.algorithm else acc) acc).strength := by
  induction hs with
  | nil => intro acc; exact ⟨le_refl _, by simp⟩
  | cons h hs ih =>
    intro acc
    simp only [List.foldl_cons]
    have hstep : acc.strength ≤ (if acc.strength < h.algorithm.strength then h.algorithm else acc).strength ∧
        h.algorithm.strength ≤ (if acc.strength < h.algorithm.strength then h.algorithm else acc).strength := by
      split <;> omega
    obtain ⟨ih1, ih2⟩ := ih (if acc.strength < h.algorithm.strength then h.algorithm else acc)
    refine ⟨le_trans hstep.1 ih1, ?_⟩
    intro g hg
    rcases List.mem_cons.mp hg with rfl | hg
    · exact le_trans hstep.2 ih1
    · exact ih2 g hg

theorem pickFold_mem (hs : List SsriHash) :
    ∀ acc : Algorithm,
      (hs.foldl (fun acc h =>
        if acc.strength < h.algorithm.strength then h.algorithm else acc) acc) = acc ∨
      (hs.foldl (fun acc h =>
        if acc.strength < h.algorithm.strength then h.algorithm else acc) acc) ∈
        hs.map SsriHash.algorithm := by
  induction hs with
  | nil => intro acc; exact Or.inl rfl
  | cons h hs ih =>
    intro acc
    simp only [List.foldl_cons, List.map_cons, List.mem_cons]
    rcases ih (if acc.strength < h.algorithm.strength then h.algorithm else acc) with heq | hmem
    · rw [heq]
      split
      · exact Or.inr (Or.inl rfl)
      · exact Or.inl rfl
    · exact Or.inr (Or.inr hmem)

/-- `pick_algorithm` returns an algorithm present among the parsed hashes
whose strength dominates every other present algorithm. -/
theorem pickAlgorithm_spec {hs : List SsriHash} (hne : hs ≠ []) :
    pickAlgorithm hs ∈ hs.map SsriHash.algorithm ∧
      ∀ h ∈ hs, h.algorithm.strength ≤ (pickAlgorithm hs).strength := by
  obtain ⟨hge, hmax⟩ := pickFold_ge hs .sha1
  rcases pickFold_mem hs .sha1 with heq | hmem
  · refine ⟨?_, by simpa [pickAlgorithm] using hmax⟩
    unfold pickAlgorithm
    rw [heq]
    obtain ⟨h, hs', rfl⟩ : ∃ h hs', hs = h :: hs' := by
      cases hs with
      | nil => exact absurd rfl hne
      | cons h hs' => exact ⟨h, hs', rfl⟩
    have hh : h.algorithm.strength ≤ 0 := by
      have := hmax h (by simp)
      rw [heq] at this
      simpa [Algorithm.strength] using this
    rw [← strength_le_zero hh]
    simp
  · exact ⟨by simpa [pickAlgorithm] using hmem, by simpa [pickAlgorithm] using hmax⟩

/-- sha512 wins whenever it is present. -/
theorem pickAlgorithm_sha512 {hs : List SsriHash} (hne : hs ≠ [])
    (hmem : Algorithm.sha512 ∈ hs.map SsriHash.algorithm) :
    pickAlgorithm hs = .sha512 := by
  obtain ⟨h, hh, halg⟩ := List.mem_map.mp hmem
  have := (pickAlgorithm_spec hne).2 h hh
  rw [halg] at this
  exact strength_ge_three (by simpa [Algorithm.strength] using this)

theorem parseIntegrity_ne_nil {s : Str} {hs : List SsriHash}
    (h : parseIntegrity s = some hs) : hs ≠ [] := by
  unfold parseIntegrity at h
  split at h
  · exact absurd h (by simp)
  · exact absurd h (by simp)
  · rename_i hs' hne _
    simp only [Option.some.injEq] at h
    subst h
    exact hne

theorem parseIntegrity_single {s : Str} (hne : s ≠ [])
    (hws : ∀ c ∈ s, c.isWhitespace = false) {h : SsriHash}
    (hparse : parseHash s = some h) : parseIntegrity s = some [h] := by
  unfold parseIntegrity
  rw [splitWs_wsFree hne hws]
  simp [List.mapM, List.mapM.loop, hparse]

theorem parseHash_sha512 (d : Str) :
    parseHash (str "sha512" ++ '-' :: d) = some ⟨.sha512, d⟩ := by
  unfold parseHash
  rw [splitAtFirst_append d (by decide)]
  rfl

theorem sha512_str_decomp : str "sha512-" ++ [] = str "sha512" ++ ['-'] := by decide

theorem parseIntegrity_sha512 {h : Str} (hhex : h.all isLowerHexChar = true) :
    parseIntegrity (str "sha512-" ++ h) = some [⟨.sha512, h⟩] := by
  have hdecomp : str "sha512-" ++ h = str "sha512" ++ '-' :: h := by
    have : str "sha512-" = str "sha512" ++ ['-'] := by decide
    rw [this, List.append_assoc, List.singleton_append]
  apply parseIntegrity_single
  · intro habs
    have : (str "sha512-" ++ h).length = 0 := by rw [habs]; rfl
    simp [str] at this
  · intro c hc
    rcases List.mem_append.mp hc with hc | hc
    · have hall : ∀ x ∈ str "sha512-", x.isWhitespace = false := by decide
      exact hall c hc
    · exact lowerHexChar_not_ws (List.all_eq_true.mp hhex c hc)
  · rw [hdecomp]
    exact parseHash_sha512 h

theorem normalize_single_sha512 {s d : Str}
    (hparse : parseIntegrity s = some [⟨.sha512, d⟩]) :
    normalizeHashString s = .ok (str "sha512-" ++ toHexDigest d) := by
  unfold normalizeHashString
  rw [hparse]
  rfl

/-- Normalization of any parsed integrity string keeps exactly one hash — a
first hash carrying the picked (strongest) algorithm — and renders it as
`algoTag ++ hex`: the algorithm-name prefix is restored only for sha1 and
sha512. -/
theorem normalizeHashString_spec {s : Str} {hs : List SsriHash}
    (hparse : parseIntegrity s = some hs) :
    ∃ h ∈ hs, h.algorithm = pickAlgorithm hs ∧
      normalizeHashString s = .ok (algoTag (pickAlgorithm hs) ++ toHexDigest h.digest) := by
  have hne := parseIntegrity_ne_nil hparse
  obtain ⟨hmem, _⟩ := pickAlgorithm_spec hne
  obtain ⟨g, hgmem, hgalg⟩ := List.mem_map.mp hmem
  have hfindSome : (hs.find? (fun h => h.algorithm == pickAlgorithm hs)).isSome := by
    rw [List.find?_isSome]
    exact ⟨g, hgmem, by simp [hgalg]⟩
  obtain ⟨h, hfind⟩ := Option.isSome_iff_exists.mp hfindSome
  have hhmem := List.mem_of_find?_eq_some hfind
  have hhalg : h.algorithm = pickAlgorithm hs := by
    have := List.find?_some hfind
    simpa using this
  refine ⟨h, hhmem, hhalg, ?_⟩
  unfold normalizeHashString
  rw [hparse]
  dsimp only
  rw [hfind]
  rcases hcase : pickAlgorithm hs <;> simp [algoTag]

theorem bleTotal : ∀ a b : Nat, Nat.ble a b = true ∨ Nat.ble b a = true := by
  intro a b
  rcases Nat.le_total a b with h | h
  · exact Or.inl (Nat.ble_eq.mpr h)
  · exact Or.inr (Nat.ble_eq.mpr h)

theorem bleTrans : ∀ a b c : Nat, Nat.ble a b = true → Nat.ble b c = true → Nat.ble a c = true := by
  intro a b c h1 h2
  exact Nat.ble_eq.mpr (le_trans (Nat.ble_eq.mp h1) (Nat.ble_eq.mp h2))

/-- The `versions` field list of `miniDoc`. -/
def miniFields : List (Str × JsonValue) :=
  [(str "1.0.0", miniMeta), (str "1.2.0", miniMeta), (str "2.0.0", miniMeta)]

/-- C1: on a registry document whose `versions` map is an object, the
versioned-branch OK handler resolves by parsing every version key as semver
(discarding unparsable keys), keeping those the range test accepts
(`survivors`), and resolving the range-maximum survivor as the outcome's
resolved version; when no survivor exists it fails with a version-lookup
error naming the original specifier. -/
theorem c1_version_resolver {V : Type} (sv : Semver V) (test : V → Bool)
    (pkg reqName inputVersion : Str) (doc : JsonValue)
    (fields : List (Str × JsonValue))
    (hobj : (doc.idx (str "versions")).asObject = some fields)
    (htot : ∀ a b, sv.le a b = true ∨ sv.le b a = true)
    (htrans : ∀ a b c, sv.le a b = true → sv.le b c = true → sv.le a c = true) :
    (survivors sv test fields = [] →
      okVersioned sv test pkg reqName inputVersion doc =
        some (.fail (.versionLookupError pkg))) ∧
    (∀ n v h p, okVersioned sv test pkg reqName inputVersion doc = some (.ok (n, v, h, p)) →
      n = pkg ∧ ∃ m ∈ survivors sv test fields, v = sv.render m ∧
        ∀ w ∈ survivors sv test fields, sv.le w m = true) := by
  constructor
  · intro hempty
    unfold okVersioned
    rw [hobj]
    dsimp only
    rw [hempty]
    rfl
  · intro n v h p hok
    obtain ⟨fields', m, t, hfields', hsort, hn, hv, _, _⟩ := okVersioned_ok hok
    rw [hobj] at hfields'
    obtain rfl : fields = fields' := by
      simpa using hfields'
    have hne : survivors sv test fields ≠ [] := by
      intro hempty
      rw [hempty] at hsort
      exact absurd hsort (by simp [sortDescBy])
    obtain ⟨m', t', hsort', hmem', hmax'⟩ := sortDescBy_max sv.le htot htrans _ hne
    rw [hsort] at hsort'
    injection hsort' with h1 _
    rw [← h1] at hmem' hmax'
    exact ⟨hn, m, hmem', hv, hmax'⟩

/-- C1 witness: the spec's example — versions 1.0.0, 1.2.0, 2.0.0 with range
`^1.0.0` resolve to 1.2.0 — instantiated in the concrete semver model and
checked against the resolver theorem and the end-to-end resolution. -/
theorem c1_witness :
    (miniDoc.idx (str "versions")).asObject = some miniFields ∧
    ((survivors miniSemver rangeCaret100 miniFields = [] →
        okVersioned miniSemver rangeCaret100 (str "x@^1.0.0") (str "x") (str "^1.0.0") miniDoc =
          some (.fail (.versionLookupError (str "x@^1.0.0")))) ∧
      (∀ n v h p,
        okVersioned miniSemver rangeCaret100 (str "x@^1.0.0") (str "x") (str "^1.0.0") miniDoc =
          some (.ok (n, v, h, p)) →
        n = str "x@^1.0.0" ∧ ∃ m ∈ survivors miniSemver rangeCaret100 miniFields,
          v = miniSemver.render m ∧
          ∀ w ∈ survivors miniSemver rangeCaret100 miniFields, miniSemver.le w m = true)) ∧
    getVersion miniSemver (netOf miniDoc) 2 5 (str "x@^1.0.0") =
      .ok (str "x@^1.0.0", str "1.2.0", str "sha512-75e69d6de79f",
        some ⟨str "x", str "^1.0.0", str "T", none, str "sha512-75e69d6de79f", none, none⟩) :=
  ⟨rfl,
    c1_version_resolver miniSemver rangeCaret100 (str "x@^1.0.0") (str "x") (str "^1.0.0")
      miniDoc miniFields rfl bleTotal bleTrans,
    by decide⟩

/-- C4: every successful resolution materializes the optional
`VoltPackage` exactly when the dependency count of the selected version —
the key count of `versions[v].dependencies` in the OK response's document,
zero when absent or not an object — is zero; this holds on all three
specifier-shape branches of `get_version`. -/
theorem c4_leaf_materialization {V : Type} {sv : Semver V} {net : Network}
    {maxR fuel : Nat} {pkg n v h : Str} {p : Option VoltPackage}
    (hok : getVersion sv net maxR fuel pkg = .ok (n, v, h, p)) :
    ∃ url i, (net url i).status = 200 ∧
      (p.isSome = true ↔ depCount (net url i).body v = 0) := by
  unfold getVersion at hok
  split at hok
  · obtain ⟨i, h200, hhandler⟩ := loopA_ok hok
    obtain ⟨_, _, hiff, _⟩ := okNoVersion_ok hhandler
    exact ⟨urlFor pkg, i, h200, hiff⟩
  · split at hok
    · split at hok
      · exact absurd hok (by simp)
      · obtain ⟨i, h200, hhandler⟩ := loopB_ok hok
        obtain ⟨_, _, _, _, _, _, _, hiff, _⟩ := okVersioned_ok hhandler
        exact ⟨urlFor (requestName pkg (constraint2 pkg)), i, h200, hiff⟩
    · split at hok
      · split at hok
        · exact absurd hok (by simp)
        · obtain ⟨i, h200, hhandler⟩ := loopC_ok hok
          obtain ⟨_, _, _, _, _, _, _, hiff, _⟩ := okVersioned_ok hhandler
          exact ⟨urlFor (requestName pkg (constraint1 pkg)), i, h200, hiff⟩
      · exact absurd hok (by simp)

/-- C4 witness: a leaf resolution (no `dependencies` key) materializes the
package, and the theorem's dependency-count criterion holds for it. -/
theorem c4_witness :
    getVersion miniSemver (netOf miniDocA) 2 5 (str "x") =
      .ok (str "x", str "1.0.0", str "sha512-75e69d6de79f",
        some ⟨str "x", str "1.0.0", str "T", none, str "sha512-75e69d6de79f", none, none⟩) ∧
    ∃ url i, ((netOf miniDocA) url i).status = 200 ∧
      ((some (VoltPackage.mk (str "x") (str "1.0.0") (str "T") none
          (str "sha512-75e69d6de79f") none none)).isSome = true ↔
        depCount ((netOf miniDocA) url i).body (str "1.0.0") = 0) :=
  ⟨by decide,
    @c4_leaf_materialization Nat miniSemver (netOf miniDocA) 2 5 (str "x") (str "x")
      (str "1.0.0") (str "sha512-75e69d6de79f")
      (some (VoltPackage.mk (str "x") (str "1.0.0") (str "T") none
        (str "sha512-75e69d6de79f") none none))
      (by decide)⟩

/-- A network answering OK with a body whose `versions` is not an object. -/
def netNullVersions : Network := fun _ _ => ⟨200, .obj []⟩

/-- C10: when every registry response is status OK but the body's
`versions` field is not an object, the unscoped versioned branch of
`get_version` never terminates — the OK arm falls through with no error and
no retry-cap check for every fuel bound — while the scoped versioned branch
fails with a version-lookup error in the same situation. -/
theorem c10_nontermination {V : Type} (sv : Semver V) (net : Network) (maxR : Nat) :
    (∀ (pkg : Str) (test : V → Bool),
      pkg.count '@' = 1 → '/' ∉ pkg → sv.rangeParse (constraint1 pkg) = some test →
      (∀ i, (net (urlFor (requestName pkg (constraint1 pkg))) i).status = 200 ∧
        ((net (urlFor (requestName pkg (constraint1 pkg))) i).body.idx
          (str "versions")).asObject = none) →
      ∀ fuel, getVersion sv net maxR fuel pkg = .diverge) ∧
    (∀ (pkg : Str) (test : V → Bool),
      pkg.count '@' = 2 → '/' ∈ pkg → sv.rangeParse (constraint2 pkg) = some test →
      (∀ i, (net (urlFor (requestName pkg (constraint2 pkg))) i).status = 200 ∧
        ((net (urlFor (requestName pkg (constraint2 pkg))) i).body.idx
          (str "versions")).asObject = none) →
      ∀ fuel, getVersion sv net maxR (fuel + 1) pkg = .fail (.versionLookupError pkg)) := by
  constructor
  · intro pkg test hcount hslash hrange hnet fuel
    rw [getVersion_shapeC hcount hslash hrange]
    exact loopC_diverge hnet fuel 0
  · intro pkg test hcount hslash hrange hnet fuel
    rw [getVersion_shapeB hcount hslash hrange]
    exact loopB_nonobject (hnet 0).1 (hnet 0).2

/-- C10 witness: with a constant OK/`versions`-not-an-object registry, the
unscoped versioned specifier diverges at an arbitrary fuel bound while the
scoped versioned specifier fails with a version-lookup error. -/
theorem c10_witness :
    getVersion miniSemver netNullVersions 2 7 (str "a@1.0.0") = .diverge ∧
    getVersion miniSemver netNullVersions 2 7 (str "@s/a@1.0.0") =
      .fail (.versionLookupError (str "@s/a@1.0.0")) :=
  ⟨(c10_nontermination miniSemver netNullVersions 2).1 (str "a@1.0.0")
      (fun v => v == 1000000) (by decide) (by decide) rfl (fun _ => ⟨rfl, rfl⟩) 7,
    (c10_nontermination miniSemver netNullVersions 2).2 (str "@s/a@1.0.0")
      (fun v => v == 1000000) (by decide) (by decide) rfl (fun _ => ⟨rfl, rfl⟩) 6⟩

/-- Does a run outcome carry a too-many-requests failure? -/
def isTooManyFail : RunOutcome → Bool
  | .fail (.tooManyRequests _ _) => true
  | _ => false

/-- C5 (amended): under constant 404 responses and enough fuel, the two
no-version shapes and the scoped versioned shape exhaust the retry budget
and fail with `TooManyRequests` naming the requested package, but the
unscoped versioned shape fails with `VersionLookupError` instead; in every
case the first failing element fails the whole batch with that error. -/
theorem c5_amended {V : Type} (sv : Semver V) (net : Network) (maxR fuel : Nat)
    (h404 : ∀ url i, (net url i).status = 404) (hfuel : maxR < fuel) :
    (∀ pkg, (pkg.count '@' = 1 ∧ '/' ∈ pkg) ∨ (pkg.count '@' = 0 ∧ '/' ∉ pkg) →
      getVersion sv net maxR fuel pkg = .fail (.tooManyRequests (urlFor pkg) pkg)) ∧
    (∀ (pkg : Str) (test : V → Bool), pkg.count '@' = 2 → '/' ∈ pkg →
      sv.rangeParse (constraint2 pkg) = some test →
      getVersion sv net maxR fuel pkg = .fail (.tooManyRequests (urlFor pkg) pkg)) ∧
    (∀ (pkg : Str) (test : V → Bool), pkg.count '@' = 1 → '/' ∉ pkg →
      sv.rangeParse (constraint1 pkg) = some test →
      getVersion sv net maxR fuel pkg = .fail (.versionLookupError pkg)) ∧
    (∀ (pkg : Str) (ps : List Str) (e : VoltError),
      getVersion sv net maxR fuel pkg = .fail e →
      getVersions sv net maxR fuel (pkg :: ps) = .fail e) := by
  refine ⟨?_, ?_, ?_, ?_⟩
  · intro pkg hshape
    rw [getVersion_shapeA hshape]
    exact loopA_404 (fun i => h404 (urlFor pkg) i) fuel 0 (by omega) (by omega)
  · intro pkg test hcount hslash hrange
    rw [getVersion_shapeB hcount hslash hrange]
    exact loopB_404 (fun i => h404 _ i) fuel 0 (by omega) (by omega)
  · intro pkg test hcount hslash hrange
    rw [getVersion_shapeC hcount hslash hrange]
    exact loopC_404 (fun i => h404 _ i) fuel 0 (by omega) (by omega)
  · intro pkg ps e hfail
    simp [getVersions, hfail]

/-- C5 counterexample: an unscoped versioned specifier exhausting retries on
constant 404s fails with `VersionLookupError`, which is not a
too-many-requests style error, and that error fails the whole batch. -/
theorem c5_counterexample :
    getVersion miniSemver net404 2 5 (str "a@1.0.0") =
      .fail (.versionLookupError (str "a@1.0.0")) ∧
    isTooManyFail (getVersion miniSemver net404 2 5 (str "a@1.0.0")) = false ∧
    getVersions miniSemver net404 2 5 [str "a@1.0.0"] =
      .fail (.versionLookupError (str "a@1.0.0")) := by
  decide

/-- C5 witness: the amended theorem applied on constant 404 responses to all
four shapes and to a two-element batch whose head exhausts its retries. -/
theorem c5_witness :
    getVersion miniSemver net404 2 5 (str "@s/a") =
      .fail (.tooManyRequests (urlFor (str "@s/a")) (str "@s/a")) ∧
    getVersion miniSemver net404 2 5 (str "@s/a@1.0.0") =
      .fail (.tooManyRequests (urlFor (str "@s/a@1.0.0")) (str "@s/a@1.0.0")) ∧
    getVersion miniSemver net404 2 5 (str "a@1.0.0") =
      .fail (.versionLookupError (str "a@1.0.0")) ∧
    getVersions miniSemver net404 2 5 [str "a@1.0.0", str "b"] =
      .fail (.versionLookupError (str "a@1.0.0")) := by
  have h := c5_amended miniSemver net404 2 5 (fun _ _ => rfl) (by omega)
  have h3 := h.2.2.1 (str "a@1.0.0") (fun v => v == 1000000) (by decide) (by decide) rfl
  exact ⟨h.1 (str "@s/a") (Or.inl (by decide)),
    h.2.1 (str "@s/a@1.0.0") (fun v => v == 1000000) (by decide) (by decide) rfl,
    h3,
    h.2.2.2 (str "a@1.0.0") [str "b"] (.versionLookupError (str "a@1.0.0")) h3⟩

/-- A network answering every request with status 500. -/
def net500 : Network := fun _ _ => ⟨500, .null⟩

/-- A network whose first response has status 500 and whose later responses
are OK with the three-version document. -/
def netFlaky : Network := fun _ i => if i = 0 then ⟨500, .null⟩ else ⟨200, miniDoc⟩

/-- C6 (amended): a response whose status is neither OK nor 404 makes the
scoped versioned branch fail immediately with `PackageNotFound`, with no
retry and no cap check; the unscoped versioned branch instead checks the
retry cap and reissues the request, failing with `PackageNotFound` only
after the retry counter reaches the maximum. -/
theorem c6_amended {V : Type} (sv : Semver V) (net : Network) (maxR : Nat) :
    (∀ (pkg : Str) (test : V → Bool) (fuel : Nat), pkg.count '@' = 2 → '/' ∈ pkg →
      sv.rangeParse (constraint2 pkg) = some test →
      (net (urlFor (requestName pkg (constraint2 pkg))) 0).status ≠ 200 →
      (net (urlFor (requestName pkg (constraint2 pkg))) 0).status ≠ 404 →
      getVersion sv net maxR (fuel + 1) pkg = .fail (.packageNotFound (urlFor pkg) pkg)) ∧
    (∀ (pkg : Str) (test : V → Bool) (fuel : Nat), pkg.count '@' = 1 → '/' ∉ pkg →
      sv.rangeParse (constraint1 pkg) = some test →
      (net (urlFor (requestName pkg (constraint1 pkg))) 0).status ≠ 200 →
      (net (urlFor (requestName pkg (constraint1 pkg))) 0).status ≠ 404 →
      0 ≠ maxR →
      getVersion sv net maxR (fuel + 1) pkg = loopC sv test net maxR pkg (constraint1 pkg) 1 fuel) ∧
    (∀ (pkg : Str) (test : V → Bool) (fuel : Nat), pkg.count '@' = 1 → '/' ∉ pkg →
      sv.rangeParse (constraint1 pkg) = some test →
      (∀ i, (net (urlFor (requestName pkg (constraint1 pkg))) i).status ≠ 200 ∧
        (net (urlFor (requestName pkg (constraint1 pkg))) i).status ≠ 404) →
      maxR < fuel →
      getVersion sv net maxR fuel pkg = .fail (.packageNotFound (urlFor pkg) pkg)) := by
  refine ⟨?_, ?_, ?_⟩
  · intro pkg test fuel hcount hslash hrange h200 h404
    rw [getVersion_shapeB hcount hslash hrange]
    exact loopB_other_immediate h200 h404
  · intro pkg test fuel hcount hslash hrange h200 h404 hmax
    rw [getVersion_shapeC hcount hslash hrange]
    exact loopC_other_step h200 h404 hmax
  · intro pkg test fuel hcount hslash hrange hst hfuel
    rw [getVersion_shapeC hcount hslash hrange]
    exact loopC_other hst fuel 0 (by omega) (by omega)

/-- C6 counterexample: for the unscoped versioned shape, a first response of
status 500 does not fail the resolution — with an OK second response the
resolution succeeds, so the claimed immediate failure without retry is
false on that branch. -/
theorem c6_counterexample :
    (netFlaky (urlFor (str "a")) 0).status = 500 ∧
    getVersion miniSemver netFlaky 2 5 (str "a@^1.0.0") =
      .ok (str "a@^1.0.0", str "1.2.0", str "sha512-75e69d6de79f",
        some ⟨str "a", str "^1.0.0", str "T", none, str "sha512-75e69d6de79f", none, none⟩) := by
  decide

/-- C6 witness: the amended theorem applied concretely — immediate scoped
failure on a 500, one unscoped retry step on a 500, and unscoped
`PackageNotFound` after exhausting the cap on constant 500s. -/
theorem c6_witness :
    getVersion miniSemver net500 2 5 (str "@s/a@1.0.0") =
      .fail (.packageNotFound (urlFor (str "@s/a@1.0.0")) (str "@s/a@1.0.0")) ∧
    getVersion miniSemver netFlaky 2 5 (str "a@^1.0.0") =
      loopC miniSemver rangeCaret100 netFlaky 2 (str "a@^1.0.0") (str "^1.0.0") 1 4 ∧
    getVersion miniSemver net500 2 5 (str "a@1.0.0") =
      .fail (.packageNotFound (urlFor (str "a@1.0.0")) (str "a@1.0.0")) := by
  have h := c6_amended miniSemver net500 2
  have h2 := c6_amended miniSemver netFlaky 2
  refine ⟨h.1 (str "@s/a@1.0.0") (fun v => v == 1000000) 4 (by decide) (by decide) rfl
      (by decide) (by decide), ?_, ?_⟩
  · have := h2.2.1 (str "a@^1.0.0") rangeCaret100 4 (by decide) (by decide) rfl
      (by decide) (by decide) (by omega)
    exact this
  · exact h.2.2 (str "a@1.0.0") (fun v => v == 1000000) 5 (by decide) (by decide) rfl
      (fun i => ⟨by simp [net500], by simp [net500]⟩) (by omega)

/-- C7 (amended): for both versioned shapes the constraint is the text after
the last `@` of the specifier; the bare name used for the request and the
materialized package is the specifier with EVERY occurrence of `@range`
removed (`str::replace` replaces all occurrences), which coincides with
removing the trailing `@range` suffix whenever `@range` occurs nowhere else
— always the case for the unscoped shape, but not for every scoped
specifier. -/
theorem c7_amended :
    (∀ p q c : Str, '@' ∉ p → '@' ∉ q → '@' ∉ c →
      constraint2 (p ++ '@' :: (q ++ '@' :: c)) = c ∧
      constraint2 (p ++ '@' :: (q ++ '@' :: c)) = afterLastAt (p ++ '@' :: (q ++ '@' :: c)) ∧
      requestName (p ++ '@' :: (q ++ '@' :: c)) c =
        replaceAll ('@' :: c) [] (p ++ '@' :: (q ++ '@' :: c)) ∧
      (¬ ('@' :: c) <:+: (p ++ '@' :: q) →
        requestName (p ++ '@' :: (q ++ '@' :: c)) c = p ++ '@' :: q)) ∧
    (∀ b c : Str, '@' ∉ b → '@' ∉ c →
      constraint1 (b ++ '@' :: c) = c ∧
      constraint1 (b ++ '@' :: c) = afterLastAt (b ++ '@' :: c) ∧
      requestName (b ++ '@' :: c) c = b) := by
  constructor
  · intro p q c hp hq hc
    have hassoc : p ++ '@' :: (q ++ '@' :: c) = (p ++ '@' :: q) ++ '@' :: c := by
      simp
    have hsplit : splitOnChar '@' (p ++ '@' :: (q ++ '@' :: c)) = [p, q, c] := by
      rw [splitOnChar_append (q ++ '@' :: c) hp, splitOnChar_append c hq,
        splitOnChar_sepFree hc]
    have hcon : constraint2 (p ++ '@' :: (q ++ '@' :: c)) = c := by
      simp [constraint2, hsplit]
    refine ⟨hcon, ?_, rfl, ?_⟩
    · rw [hcon, hassoc, afterLastAt_append hc]
    · intro hinf
      unfold requestName atPattern
      rw [hassoc, replaceAll_append_self hc hinf]
  · intro b c hb hc
    have hsplit : splitOnChar '@' (b ++ '@' :: c) = [b, c] := by
      rw [splitOnChar_append c hb, splitOnChar_sepFree hc]
    have hcon : constraint1 (b ++ '@' :: c) = c := by
      simp [constraint1, hsplit]
    refine ⟨hcon, ?_, ?_⟩
    · rw [hcon, afterLastAt_append hc]
    · have hinf : ¬ ('@' :: c) <:+: b := by
        intro hinf
        exact hb (hinf.subset (List.mem_cons_self '@' c))
      unfold requestName atPattern
      rw [replaceAll_append_self hc hinf]

/-- C7 counterexample: in the scoped versioned specifier `@1.0.0/x@1.0.0`
the range substring `@1.0.0` also occurs at the start, and `replace` removes
both occurrences: the name used for the request and stored in the
materialized package is `/x`, not the suffix-stripped `@1.0.0/x` the claim
requires, as the end-to-end resolution shows. -/
theorem c7_counterexample :
    constraint2 (str "@1.0.0/x@1.0.0") = str "1.0.0" ∧
    requestName (str "@1.0.0/x@1.0.0") (str "1.0.0") = str "/x" ∧
    requestName (str "@1.0.0/x@1.0.0") (str "1.0.0") ≠ str "@1.0.0/x" ∧
    getVersion miniSemver (netOf miniDoc) 2 5 (str "@1.0.0/x@1.0.0") =
      .ok (str "@1.0.0/x@1.0.0", str "1.0.0", str "sha512-75e69d6de79f",
        some ⟨str "/x", str "1.0.0", str "T", none, str "sha512-75e69d6de79f", none, none⟩) := by
  decide

/-- C7 witness: the amended theorem applied to a well-behaved scoped
specifier `@s/a@1.0.0` (range occurs only as the suffix) and an unscoped
specifier `a@1.0.0`. -/
theorem c7_witness :
    constraint2 (str "@s/a@1.0.0") = str "1.0.0" ∧
    constraint2 (str "@s/a@1.0.0") = afterLastAt (str "@s/a@1.0.0") ∧
    requestName (str "@s/a@1.0.0") (str "1.0.0") = str "@s/a" ∧
    constraint1 (str "a@1.0.0") = afterLastAt (str "a@1.0.0") ∧
    requestName (str "a@1.0.0") (str "1.0.0") = str "a" := by
  have hs := c7_amended.1 (str "") (str "s/a") (str "1.0.0")
    (by decide) (by decide) (by decide)
  have hu := c7_amended.2 (str "a") (str "1.0.0") (by decide) (by decide)
  exact ⟨hs.1, hs.2.1, hs.2.2.2 (by decide), hu.2.1, hu.2.2⟩

/-- C8 (amended): normalizing the canonical string `sha512-<h>` re-parses
`h` as a base64 digest and renders its decoding as hex, yielding
`sha512-<hex(decode(h))>`; it returns the input unchanged exactly when
`hex(decode(h)) = h`, which fails for hex digests in general (idempotence
does not hold on the canonical output). -/
theorem c8_amended {h : Str} (hhex : h.all isLowerHexChar = true) {bs : List Nat}
    (hdec : base64Decode h = some bs) :
    normalizeHashString (str "sha512-" ++ h) = .ok (str "sha512-" ++ hexEncode bs) ∧
      (normalizeHashString (str "sha512-" ++ h) = .ok (str "sha512-" ++ h) ↔
        hexEncode bs = h) := by
  have hp := parseIntegrity_sha512 hhex
  have hn := normalize_single_sha512 hp
  have hth : toHexDigest h = hexEncode bs := by
    unfold toHexDigest
    rw [hdec]
    rfl
  rw [hth] at hn
  refine ⟨hn, ?_⟩
  rw [hn]
  constructor
  · intro he
    simp only [Except.ok.injEq] at he
    exact List.append_cancel_left he
  · intro he
    rw [he]

/-- C8 counterexample: normalizing the already-canonical integrity string
`sha512-deadbeef` (a hex digest) does not return it unchanged — the hex
text is re-decoded as base64 and re-rendered as hex. -/
theorem c8_counterexample :
    normalizeHashString (str "sha512-deadbeef") = .ok (str "sha512-75e69d6de79f") ∧
    normalizeHashString (str "sha512-deadbeef") ≠ .ok (str "sha512-deadbeef") := by
  decide

/-- C8 witness: the amended theorem applied to the hex digest `deadbeef`. -/
theorem c8_witness :
    (str "deadbeef").all isLowerHexChar = true ∧
    base64Decode (str "deadbeef") = some [117, 230, 157, 109, 231, 159] ∧
    normalizeHashString (str "sha512-" ++ str "deadbeef") =
      .ok (str "sha512-" ++ hexEncode [117, 230, 157, 109, 231, 159]) ∧
    (normalizeHashString (str "sha512-" ++ str "deadbeef") =
        .ok (str "sha512-" ++ str "deadbeef") ↔
      hexEncode [117, 230, 157, 109, 231, 159] = str "deadbeef") :=
  ⟨by decide, by decide, (c8_amended (by decide) (by decide)).1,
    (c8_amended (by decide) (by decide)).2⟩

/-- C3 (amended): normalization of any integrity string that parses keeps
exactly one hash — one whose algorithm is the strongest present, so sha512
is preferred over sha1 when both occur — and renders its decoded digest as
lowercase hex; the algorithm-name-and-hyphen prefix is restored only when
the surviving algorithm is sha1 or sha512 (`algoTag`), so sha256/sha384
survivors are returned as bare hex with no prefix. -/
theorem c3_amended {s : Str} {hs : List SsriHash}
    (hparse : parseIntegrity s = some hs) :
    pickAlgorithm hs ∈ hs.map SsriHash.algorithm ∧
    (Algorithm.sha512 ∈ hs.map SsriHash.algorithm → pickAlgorithm hs = .sha512) ∧
    ∃ h ∈ hs, h.algorithm = pickAlgorithm hs ∧
      normalizeHashString s = .ok (algoTag (pickAlgorithm hs) ++ toHexDigest h.digest) ∧
      ∀ bs, base64Decode h.digest = some bs →
        toHexDigest h.digest = hexEncode bs ∧ (hexEncode bs).all isLowerHexChar = true := by
  have hne := parseIntegrity_ne_nil hparse
  obtain ⟨h, hmem, halg, hnorm⟩ := normalizeHashString_spec hparse
  refine ⟨(pickAlgorithm_spec hne).1, fun hm => pickAlgorithm_sha512 hne hm,
    h, hmem, halg, hnorm, ?_⟩
  intro bs hbs
  constructor
  · unfold toHexDigest
    rw [hbs]
    rfl
  · exact hexEncode_lower bs

/-- C3 counterexample: an integrity string whose strongest algorithm is
sha384 is normalized to the bare hex digest with no `sha384-` prefix,
contradicting the claimed `<algorithm>-<hex>` shape for every input. -/
theorem c3_counterexample :
    normalizeHashString (str "sha384-deadbeef") = .ok (str "75e69d6de79f") ∧
    normalizeHashString (str "sha384-deadbeef") ≠ .ok (str "sha384-75e69d6de79f") := by
  decide

/-- C3 witness: the amended theorem applied to an integrity string carrying
both a sha1 and a sha512 entry — sha512 survives and is re-prefixed. -/
theorem c3_witness :
    parseIntegrity (str "sha1-abcd sha512-deadbeef") =
      some [⟨.sha1, str "abcd"⟩, ⟨.sha512, str "deadbeef"⟩] ∧
    (pickAlgorithm [⟨.sha1, str "abcd"⟩, ⟨.sha512, str "deadbeef"⟩] ∈
      List.map SsriHash.algorithm [⟨.sha1, str "abcd"⟩, ⟨.sha512, str "deadbeef"⟩] ∧
    (Algorithm.sha512 ∈
        List.map SsriHash.algorithm [⟨.sha1, str "abcd"⟩, ⟨.sha512, str "deadbeef"⟩] →
      pickAlgorithm [⟨.sha1, str "abcd"⟩, ⟨.sha512, str "deadbeef"⟩] = .sha512) ∧
    ∃ h ∈ [(⟨.sha1, str "abcd"⟩ : SsriHash), ⟨.sha512, str "deadbeef"⟩],
      h.algorithm = pickAlgorithm [⟨.sha1, str "abcd"⟩, ⟨.sha512, str "deadbeef"⟩] ∧
      normalizeHashString (str "sha1-abcd sha512-deadbeef") =
        .ok (algoTag (pickAlgorithm [⟨.sha1, str "abcd"⟩, ⟨.sha512, str "deadbeef"⟩]) ++
          toHexDigest h.digest) ∧
      ∀ bs, base64Decode h.digest = some bs →
        toHexDigest h.digest = hexEncode bs ∧ (hexEncode bs).all isLowerHexChar = true) :=
  ⟨by decide, c3_amended (by decide)⟩

/-- C9: evaluation exhibiting the bug — a versioned resolution whose range
`^1.0.0` selects version 1.2.0 returns `1.2.0` as the outcome's resolved
version but stores the raw range text `^1.0.0`, not `1.2.0`, in the
materialized package's version field (`version: input_version` in both
versioned branches of the source). -/
theorem c9_code_evaluation :
    getVersion miniSemver (netOf miniDoc) 2 5 (str "x@^1.0.0") =
      .ok (str "x@^1.0.0", str "1.2.0", str "sha512-75e69d6de79f",
        some ⟨str "x", str "^1.0.0", str "T", none, str "sha512-75e69d6de79f", none, none⟩) ∧
    str "^1.0.0" ≠ str "1.2.0" := by
  decide

/-- C2: batch resolution resolves positionally — on success the outcome list
has one entry per specifier and its i-th entry is the resolution of the i-th
specifier — and when the first failing specifier (all earlier ones
resolving) fails with an error, the whole batch fails with exactly that
error and no outcome list is produced. -/
theorem c2_batch_order {V : Type} (sv : Semver V) (net : Network) (maxR fuel : Nat)
    (pkgs : List Str) :
    (∀ outs, getVersions sv net maxR fuel pkgs = .ok outs →
      outs.length = pkgs.length ∧
      ∀ (i : Nat) (p : Str) (o : ResolutionOut), pkgs[i]? = some p → outs[i]? = some o →
        getVersion sv net maxR fuel p = .ok o) ∧
    (∀ (i : Nat) (p : Str) (e : VoltError), pkgs[i]? = some p →
      getVersion sv net maxR fuel p = .fail e →
      (∀ (j : Nat) (q : Str), j < i → pkgs[j]? = some q →
        ∃ o, getVersion sv net maxR fuel q = .ok o) →
      getVersions sv net maxR fuel pkgs = .fail e) := by
  induction pkgs with
  | nil =>
    constructor
    · intro outs hok
      simp only [getVersions, RunBatch.ok.injEq] at hok
      subst hok
      exact ⟨rfl, by intro i p o hp _; simp at hp⟩
    · intro i p e hp _ _
      simp at hp
  | cons p ps ih =>
    constructor
    · intro outs hok
      simp only [getVersions] at hok
      split at hok
      · rename_i o hvo
        split at hok
        · rename_i os hvos
          simp only [RunBatch.ok.injEq] at hok
          subst hok
          obtain ⟨hlen, hpos⟩ := ih.1 os hvos
          refine ⟨by simp [hlen], ?_⟩
          intro i q r hq hr
          cases i with
          | zero =>
            simp only [List.getElem?_cons_zero, Option.some.injEq] at hq hr
            rw [← hq, ← hr]
            exact hvo
          | succ i =>
            rw [List.getElem?_cons_succ] at hq hr
            exact hpos i q r hq hr
        · rename_i hne
          exact absurd hok (by rename_i r _; cases r <;> simp_all)
      · exact absurd hok (by simp)
      · exact absurd hok (by simp)
      · exact absurd hok (by simp)
    · intro i q e hq hfail hprev
      cases i with
      | zero =>
        simp only [List.getElem?_cons_zero, Option.some.injEq] at hq
        subst hq
        simp [getVersions, hfail]
      | succ i =>
        rw [List.getElem?_cons_succ] at hq
        obtain ⟨o, ho⟩ := hprev 0 p (by omega) (by simp)
        have htail := ih.2 i q e hq hfail
          (fun j r hj hr => hprev (j + 1) r (by omega) (by simpa using hr))
        simp [getVersions, ho, htail]

/-- The resolution outcome of the bare specifier `x` against `miniDocA`. -/
def outLatest : ResolutionOut :=
  (str "x", str "1.0.0", str "sha512-75e69d6de79f",
    some ⟨str "x", str "1.0.0", str "T", none, str "sha512-75e69d6de79f", none, none⟩)

/-- The resolution outcome of `x@^1.0.0` against `miniDocA`. -/
def outCaret : ResolutionOut :=
  (str "x@^1.0.0", str "1.0.0", str "sha512-75e69d6de79f",
    some ⟨str "x", str "^1.0.0", str "T", none, str "sha512-75e69d6de79f", none, none⟩)

/-- C2 witness: a two-element batch resolves positionally, and a batch whose
head exhausts retries fails as a whole with the head's error. -/
theorem c2_witness :
    ([outLatest, outCaret].length = [str "x", str "x@^1.0.0"].length ∧
      ∀ (i : Nat) (p : Str) (o : ResolutionOut),
        [str "x", str "x@^1.0.0"][i]? = some p → [outLatest, outCaret][i]? = some o →
        getVersion miniSemver (netOf miniDocA) 2 5 p = .ok o) ∧
    getVersions miniSemver net404 2 5 [str "a@1.0.0", str "b"] =
      .fail (.versionLookupError (str "a@1.0.0")) :=
  ⟨(c2_batch_order miniSemver (netOf miniDocA) 2 5 [str "x", str "x@^1.0.0"]).1
      [outLatest, outCaret] (by decide),
    (c2_batch_order miniSemver net404 2 5 [str "a@1.0.0", str "b"]).2 0 (str "a@1.0.0")
      (.versionLookupError (str "a@1.0.0")) rfl (by decide)
      (fun j q hj _ => absurd hj (by omega))⟩
